import Mathlib

/-!
# Tariff Tracker dashboard — verification of the table-processing core

Shallow embedding of the data pipeline in `main.py`: the numeric-cleaning
function `clean_numeric`, the sidebar equality-filter blocks, the
category/mean aggregate, and the synthetic-data generator.

Cells are loosely typed scalars.  Python floats are modelled as rationals;
the IEEE infinities produced by parsing strings such as `"inf"` are kept as
an explicit constructor, and the missing-value marker NaN likewise, since
`fillna` treats NaN specially while leaving infinities alone.
-/

/-- A scalar cell of the table: text, a finite number (Python float modelled
as `ℚ`), a signed infinity (`true` = `+inf`), the float NaN, or a missing
value (`None`). -/
inductive Value where
  | str  : String → Value
  | num  : ℚ → Value
  | inf  : Bool → Value
  | nan  : Value
  | null : Value
deriving DecidableEq

/-- A row: association list from column name to cell value. -/
abbrev Row := List (String × Value)

/-- A table: a column list (`df.columns`) and an ordered list of rows. -/
structure Table where
  cols : List String
  rows : List Row
deriving DecidableEq

/-- Cell lookup in a row; a key absent from the row reads as missing
(in a rectangular frame a cell of an existing column is `NaN`, not absent,
but the embedding tolerates ragged rows). -/
def getCell (r : Row) (c : String) : Value :=
  match r with
  | [] => Value.null
  | (k, v) :: rest => if k = c then v else getCell rest c

/-- Cell update: replace the first binding of the key, or append one. -/
def setCell (r : Row) (c : String) (v : Value) : Row :=
  match r with
  | [] => [(c, v)]
  | (k, w) :: rest => if k = c then (c, v) :: rest else (k, w) :: setCell rest c v

/-- The keys of a row. -/
def rowKeys (r : Row) : List String := r.map Prod.fst

/-- `.str.replace(",", "").str.replace(" ", "")`: drop every comma and
space character. -/
def stripCS (s : String) : String :=
  String.mk (s.toList.filter (fun ch => ch ≠ ',' && ch ≠ ' '))

/-- Result of float parsing: a finite value, an infinity, or NaN. -/
inductive PFloat where
  | num : ℚ → PFloat
  | inf : Bool → PFloat
  | nan : PFloat
deriving DecidableEq

/-- Numeric value of a digit run (most significant first). -/
def digitsVal (l : List Char) : ℕ :=
  l.foldl (fun a c => a * 10 + (c.toNat - 48)) 0

/-- Decimal digit test. -/
def isDigitCh (c : Char) : Bool := 48 ≤ c.toNat && c.toNat ≤ 57

/-- Optional leading sign; returns (negative?, rest). -/
def splitSign : List Char → Bool × List Char
  | '-' :: rest => (true, rest)
  | '+' :: rest => (false, rest)
  | l => (false, l)

/-- Exponent suffix after `e`/`E`: signed digit run scaling the mantissa. -/
def parseExp (m : ℚ) (l : List Char) : Option ℚ :=
  let (eneg, l2) := splitSign l
  if l2 ≠ [] && l2.all isDigitCh then
    some (if eneg then m / 10 ^ digitsVal l2 else m * 10 ^ digitsVal l2)
  else none

/-- Unsigned decimal literal: `digits[.digits][(e|E)[sign]digits]`, at least
one digit in the mantissa. -/
def parseDec (l : List Char) : Option ℚ :=
  let ip := l.takeWhile isDigitCh
  let rest := l.dropWhile isDigitCh
  match rest with
  | [] => if ip = [] then none else some (digitsVal ip : ℚ)
  | '.' :: rest2 =>
    let fp := rest2.takeWhile isDigitCh
    let rest3 := rest2.dropWhile isDigitCh
    if ip = [] && fp = [] then none
    else
      let mant : ℚ := (digitsVal ip : ℚ) + (digitsVal fp : ℚ) / 10 ^ fp.length
      match rest3 with
      | [] => some mant
      | e :: rest4 => if e = 'e' || e = 'E' then parseExp mant rest4 else none
  | e :: rest2 =>
    if (e = 'e' || e = 'E') && ip ≠ [] then parseExp (digitsVal ip : ℚ) rest2 else none

/-- Lower-case a character (ASCII). -/
def lowerCh (c : Char) : Char :=
  if 65 ≤ c.toNat && c.toNat ≤ 90 then Char.ofNat (c.toNat + 32) else c

/-- `pd.to_numeric` string parsing: optional sign, then either a decimal
literal, an infinity word (`inf`/`infinity`), or `nan`. -/
def parseNum (s : String) : Option PFloat :=
  let (neg, l) := splitSign s.toList
  let low := l.map lowerCh
  if low = ['i','n','f'] || low = ['i','n','f','i','n','i','t','y'] then
    some (PFloat.inf (!neg))
  else if low = ['n','a','n'] then some PFloat.nan
  else match parseDec l with
    | some q => some (PFloat.num (if neg then -q else q))
    | none => none

/-- One cell through lines 30–36 of `main.py`: `astype(str)`, strip commas
and spaces, `pd.to_numeric(errors="coerce")`.  A cell already holding a
float is unchanged: `str()` of a float (or of an infinity, `"inf"`) is a
representation that `to_numeric` parses back to the same value.  A missing
cell renders as text (`"nan"`/`"None"`) that parses to NaN (resp. fails and
is coerced to NaN). -/
def parseCell : Value → Value
  | Value.num q => Value.num q
  | Value.inf b => Value.inf b
  | Value.nan => Value.nan
  | Value.null => Value.nan
  | Value.str s =>
    match parseNum (stripCS s) with
    | some (PFloat.num q) => Value.num q
    | some (PFloat.inf b) => Value.inf b
    | some PFloat.nan => Value.nan
    | none => Value.nan

/-- `fillna(0)` on one cell: NaN (and a missing cell) becomes `0`;
everything else, infinities included, is untouched. -/
def fillZero : Value → Value
  | Value.nan => Value.num 0
  | Value.null => Value.num 0
  | v => v

/-- Apply `f` to the cell at each listed column of a row, left to right. -/
def rowUpdate (cs : List String) (f : Value → Value) (r : Row) : Row :=
  cs.foldl (fun r c => setCell r c (f (getCell r c))) r

/-- The loop body of `clean_numeric`: re-parse one column if it is present
in the frame, else do nothing. -/
def parseColumn (T : Table) (c : String) : Table :=
  if c ∈ T.cols then
    { T with rows := T.rows.map (fun r => setCell r c (parseCell (getCell r c))) }
  else T

/-- Line 38, `df[numeric_cols] = df[numeric_cols].fillna(0)`: the selection
`df[numeric_cols]` raises `KeyError` when any listed column is absent
(`none` here); otherwise every listed cell has NaN replaced by `0`. -/
def fillnaCols (T : Table) (cs : List String) : Option Table :=
  if cs.all (fun c => decide (c ∈ T.cols)) then
    some { T with rows := T.rows.map (rowUpdate cs fillZero) }
  else none

/-- `clean_numeric(df, numeric_cols)` (lines 27–39 of `main.py`): per-column
re-parse of the columns present, then the whole-selection `fillna(0)`. -/
def clean_numeric (T : Table) (cs : List String) : Option Table :=
  fillnaCols (cs.foldl parseColumn T) cs

/-- One equality-filter step (lines 103–107 of `main.py`):
`df = df[df[c] == v]`, guarded by `c in df.columns`; a filter on an absent
column leaves the frame unchanged.  The mask keeps exactly the rows whose
cell equals the selected string, in order. -/
def filterEq (T : Table) (c v : String) : Table :=
  if c ∈ T.cols then
    { T with rows := T.rows.filter (fun r => getCell r c == Value.str v) }
  else T

/-- A sequence of equality filters applied left to right (the spec's
`applyFilters`; the script applies two such steps). -/
def applyFiltersL (T : Table) (fs : List (String × String)) : Table :=
  fs.foldl (fun T p => filterEq T p.1 p.2) T

/-- One sidebar filter block: skipped entirely when the selection is the
sentinel ("All Regions" / "All Categories"), otherwise an equality filter. -/
def filterBlock (T : Table) (c sentinel sel : String) : Table :=
  if sel ≠ sentinel then filterEq T c sel else T

/-- Both filter blocks of the script, Region then Category. -/
def applyFilters (T : Table) (region category : String) : Table :=
  filterBlock (filterBlock T "Region" "All Regions" region)
    "Category" "All Categories" category

/-- Lexicographic order on char lists by code point (Python string `<=`). -/
def lexLe : List Char → List Char → Bool
  | [], _ => true
  | _ :: _, [] => false
  | a :: as, b :: bs =>
    if a.toNat < b.toNat then true
    else if b.toNat < a.toNat then false
    else lexLe as bs

/-- String comparison used to sort group keys. -/
def strLe (a b : String) : Bool := lexLe a.toList b.toList

/-- The key order `groupby(sort=True)` realises on an object column
(pandas `safe_sort`, falling back to its mixed sort): numeric keys first,
ordered as extended reals (`-inf` below every finite number, `+inf` above),
then string keys by code point.  NaN and None never occur among group keys
(`groupby` drops them); they are ranked last only to keep the order total. -/
def keyLe : Value → Value → Bool
  | Value.num a, Value.num b => decide (a ≤ b)
  | Value.num _, Value.inf b => b
  | Value.inf a, Value.num _ => !a
  | Value.inf a, Value.inf b => !a || b
  | Value.num _, _ => true
  | Value.inf _, _ => true
  | Value.str _, Value.num _ => false
  | Value.str _, Value.inf _ => false
  | Value.str a, Value.str b => strLe a b
  | Value.str _, _ => true
  | Value.nan, Value.num _ => false
  | Value.nan, Value.inf _ => false
  | Value.nan, Value.str _ => false
  | Value.nan, _ => true
  | Value.null, Value.null => true
  | Value.null, _ => false

/-- `keyLe` as a relation. -/
def keyLeP (a b : Value) : Prop := keyLe a b = true

instance : DecidableRel keyLeP := fun a b => decEq (keyLe a b) true

/-- The group keys of a column, in row order: `groupby` drops only NaN and
None keys and keeps every other value — strings, numbers and infinities
alike. -/
def colKeys (T : Table) (c : String) : List Value :=
  T.rows.filterMap (fun r =>
    match getCell r c with
    | Value.nan => none
    | Value.null => none
    | v => some v)

/-- A text cell (`object` dtype content `mean` cannot average). -/
def isStrCell : Value → Bool
  | Value.str _ => true
  | _ => false

/-- IEEE addition on parsed-float values: NaN absorbs, an infinity
dominates finite numbers, and opposite infinities give NaN. -/
def pfAdd : PFloat → PFloat → PFloat
  | PFloat.nan, _ => PFloat.nan
  | _, PFloat.nan => PFloat.nan
  | PFloat.num a, PFloat.num b => PFloat.num (a + b)
  | PFloat.num _, PFloat.inf b => PFloat.inf b
  | PFloat.inf b, PFloat.num _ => PFloat.inf b
  | PFloat.inf a, PFloat.inf b => if a = b then PFloat.inf a else PFloat.nan

/-- Sum of a list of float values, from `0.0`. -/
def pfSum (vs : List PFloat) : PFloat := vs.foldl pfAdd (PFloat.num 0)

/-- Division of a float value by a (positive) count. -/
def pfDivNat : PFloat → ℕ → PFloat
  | PFloat.num a, k => PFloat.num (a / (k : ℚ))
  | PFloat.inf b, _ => PFloat.inf b
  | PFloat.nan, _ => PFloat.nan

/-- `mean` of the non-skipped values of a group: sum over count; a group
whose values were all skipped (all-NaN) averages to NaN. -/
def meanPF (vs : List PFloat) : PFloat :=
  if vs.length = 0 then PFloat.nan else pfDivNat (pfSum vs) vs.length

/-- A float value written back into a table cell. -/
def pfToValue : PFloat → Value
  | PFloat.num q => Value.num q
  | PFloat.inf b => Value.inf b
  | PFloat.nan => Value.nan

/-- The values of column `n` over a given list of rows that `mean`
averages: finite numbers and infinities; NaN (and missing) cells are
skipped (`skipna`).  A text cell contributes nothing here: on a column
holding text pandas `mean` raises instead, so the model is read on numeric
columns (the only ones the program aggregates, after `clean_numeric`). -/
def colPF (rows : List Row) (n : String) : List PFloat :=
  rows.filterMap (fun r =>
    match getCell r n with
    | Value.num q => some (PFloat.num q)
    | Value.inf b => some (PFloat.inf b)
    | _ => none)

/-- The finite numeric values of column `n` over a given list of rows,
used to state the all-finite-group arithmetic mean. -/
def colNums (rows : List Row) (n : String) : List ℚ :=
  rows.filterMap (fun r =>
    match getCell r n with
    | Value.num q => some q
    | _ => none)

/-- The rows of the group keyed `k`: exact equality on the key cell. -/
def groupRows (T : Table) (c : String) (k : Value) : List Row :=
  T.rows.filter (fun r => getCell r c == k)

/-- `df.groupby(c)[[n]].mean().reset_index()` (line 185 of `main.py`):
one output row per distinct non-null key of column `c`, keys sorted
ascending, paired with the mean of column `n` over the rows carrying that
key. -/
def groupMean (T : Table) (c n : String) : Table :=
  let keys := List.insertionSort keyLeP (colKeys T c).dedup
  { cols := [c, n],
    rows := keys.map (fun k =>
      [(c, k), (n, pfToValue (meanPF (colPF (groupRows T c k) n)))]) }

/-- The month labels of the synthetic dataset. -/
def months : List String :=
  ["Jan", "Feb", "Mar", "Apr", "May", "Jun",
   "Jul", "Aug", "Sep", "Oct", "Nov", "Dec"]

/-- Production base per year (line 65 of `main.py`). -/
def prodBase (y : ℚ) : ℚ :=
  if y = 2023 then 900000 else if y = 2024 then 950000 else 1100000

/-- Average-price base per year (line 66). -/
def priceBase (y : ℚ) : ℚ :=
  if y = 2023 then 65 else if y = 2024 then 67 else 72

/-- Sellout base per year (line 67). -/
def selloutBase (y : ℚ) : ℚ :=
  if y = 2023 then 1000000 else if y = 2024 then 1200000 else 1450000

/-- `create_yearly_series(base, noise)`: twelve draws from the pseudo-random
stream `g` (the standard-normal sequence that `np.random.seed(42)` fixes),
starting at stream position `k`, scaled around `base`. -/
def create_yearly_series (base noise : ℚ) (g : ℕ → ℚ) (k : ℕ) : List ℚ :=
  (List.range 12).map (fun i => base * (1 + g (k + i) * noise))

/-- The 12-row frame built for year number `j` (value `y`): the loop body of
lines 61–68.  Each year consumes 36 draws — Production, then AvgPrice
(noise 0.05), then Sellout. -/
def yearRows (g : ℕ → ℚ) (j : ℕ) (y : ℚ) : List Row :=
  let ps := create_yearly_series (prodBase y) (15 / 100) g (36 * j)
  let as2 := create_yearly_series (priceBase y) (5 / 100) g (36 * j + 12)
  let ss := create_yearly_series (selloutBase y) (15 / 100) g (36 * j + 24)
  (List.range 12).map (fun i =>
    [("Month", Value.str (months.getD i "")),
     ("Year", Value.num y),
     ("Production", Value.num (ps.getD i 0)),
     ("AvgPrice", Value.num (as2.getD i 0)),
     ("Sellout", Value.num (ss.getD i 0))])

/-- The synthetic sample table (lines 52–70): `pd.concat` of the three
yearly frames, as a function of the seeded draw stream. -/
def build_synthetic (g : ℕ → ℚ) : Table :=
  { cols := ["Month", "Year", "Production", "AvgPrice", "Sellout"],
    rows := yearRows g 0 2023 ++ yearRows g 1 2024 ++ yearRows g 2 2025 }

/-- Number of rows of a table whose Year cell is the given year. -/
def countYear (T : Table) (y : ℚ) : ℕ :=
  (T.rows.filter (fun r => getCell r "Year" == Value.num y)).length

/-! ## Derived predicates and concrete frames used by the claims -/

/-- A cell holding an actual number, finite or infinite (never text, NaN or
missing). -/
def numLike : Value → Bool
  | Value.num _ => true
  | Value.inf _ => true
  | _ => false

/-- A cell holding a finite number. -/
def finiteNum : Value → Bool
  | Value.num _ => true
  | _ => false

/-- The composite effect of `clean_numeric` on one requested cell. -/
def cleanedCell (v : Value) : Value := fillZero (parseCell v)

/-- The specification predicate of the AND-composed filters: a row survives
when, for every filter whose column is present, its cell equals the filter
string exactly; a filter on an absent column imposes nothing. -/
def keepRow (cols : List String) (fs : List (String × String)) (r : Row) : Bool :=
  fs.all (fun p => if p.1 ∈ cols then getCell r p.1 == Value.str p.2 else true)

/-- The frame that exhibits the non-finite corner of claim C1. -/
def infTable : Table := { cols := ["P"], rows := [[("P", Value.str "inf")]] }

/-- Input frame of the C1 witness. -/
def c1WitIn : Table := { cols := ["P"], rows := [[("P", Value.str "abc")]] }

/-- Cleaned form of `c1WitIn`. -/
def c1WitOut : Table := { cols := ["P"], rows := [[("P", Value.num 0)]] }

/-- The frame holding the thousands-separator cell of claim C7. -/
def commaTable : Table :=
  { cols := ["Production"], rows := [[("Production", Value.str "1,234.5")]] }

/-- Input frame of the C8 witness: one cleaned column, one untouched. -/
def c8WitIn : Table :=
  { cols := ["P", "R"],
    rows := [[("P", Value.str "abc"), ("R", Value.str "7 7")]] }

/-- Cleaned form of `c8WitIn`: column "R" keeps its raw text. -/
def c8WitOut : Table :=
  { cols := ["P", "R"],
    rows := [[("P", Value.num 0), ("R", Value.str "7 7")]] }

/-- The spec's grouping example: Category A/A/B with AvgPrice 10/20/5. -/
def c4WitT : Table :=
  { cols := ["Category", "AvgPrice"],
    rows := [[("Category", Value.str "A"), ("AvgPrice", Value.num 10)],
             [("Category", Value.str "A"), ("AvgPrice", Value.num 20)],
             [("Category", Value.str "B"), ("AvgPrice", Value.num 5)]] }

/-! ## Row-level lemmas -/

theorem getCell_setCell_self (r : Row) (c : String) (v : Value) :
    getCell (setCell r c v) c = v := by
  induction r with
  | nil => simp [setCell, getCell]
  | cons p rest ih =>
    by_cases h : p.1 = c
    · simp [setCell, getCell, h]
    · simp [setCell, getCell, h, ih]

theorem getCell_setCell_ne (r : Row) (c d : String) (v : Value) (h : d ≠ c) :
    getCell (setCell r d v) c = getCell r c := by
  induction r with
  | nil => simp [setCell, getCell, h]
  | cons p rest ih =>
    by_cases hp : p.1 = d
    · simp [setCell, getCell, hp, h]
    · simp [setCell, getCell, hp, ih]

theorem mem_keys_setCell_self (r : Row) (c : String) (v : Value) :
    c ∈ rowKeys (setCell r c v) := by
  induction r with
  | nil => simp [setCell, rowKeys]
  | cons p rest ih =>
    by_cases hp : p.1 = c
    · simp [setCell, rowKeys, hp]
    · simp only [setCell, if_neg hp, rowKeys, List.map_cons, List.mem_cons]
      exact Or.inr ih

theorem mem_keys_setCell_of_mem (r : Row) (c d : String) (v : Value)
    (h : c ∈ rowKeys r) : c ∈ rowKeys (setCell r d v) := by
  induction r with
  | nil => simp [rowKeys] at h
  | cons p rest ih =>
    by_cases hp : p.1 = d
    · simp only [rowKeys, List.map_cons, List.mem_cons] at h
      rcases h with h | h
      · simp [setCell, hp, rowKeys, h ▸ hp]
      · simp only [setCell, if_pos hp, rowKeys, List.map_cons, List.mem_cons]
        exact Or.inr h
    · simp only [rowKeys, List.map_cons, List.mem_cons] at h
      simp only [setCell, if_neg hp, rowKeys, List.map_cons, List.mem_cons]
      rcases h with h | h
      · exact Or.inl h
      · exact Or.inr (ih h)

theorem setCell_getCell_self (r : Row) (c : String) (h : c ∈ rowKeys r) :
    setCell r c (getCell r c) = r := by
  induction r with
  | nil => simp [rowKeys] at h
  | cons p rest ih =>
    by_cases hp : p.1 = c
    · cases p with
      | mk k v => simp only at hp; simp [setCell, getCell, hp]
    · simp only [rowKeys, List.map_cons, List.mem_cons] at h
      rcases h with h | h
      · exact absurd h.symm hp
      · simp [setCell, getCell, hp, ih h]

/-! ## `rowUpdate` lemmas -/

theorem getCell_rowUpdate_not_mem (cs : List String) (f : Value → Value)
    (r : Row) (c : String) (h : c ∉ cs) :
    getCell (rowUpdate cs f r) c = getCell r c := by
  induction cs generalizing r with
  | nil => rfl
  | cons d cs ih =>
    simp only [List.mem_cons, not_or] at h
    show getCell (rowUpdate cs f (setCell r d (f (getCell r d)))) c = _
    rw [ih _ h.2, getCell_setCell_ne _ _ _ _ (fun hdc => h.1 hdc.symm)]

theorem getCell_rowUpdate_mem (cs : List String) (f : Value → Value)
    (hf : ∀ v, f (f v) = f v) (r : Row) (c : String) (h : c ∈ cs) :
    getCell (rowUpdate cs f r) c = f (getCell r c) := by
  induction cs generalizing r with
  | nil => simp at h
  | cons d cs ih =>
    show getCell (rowUpdate cs f (setCell r d (f (getCell r d)))) c = _
    by_cases hc : c ∈ cs
    · rw [ih _ hc]
      by_cases hdc : d = c
      · rw [hdc, getCell_setCell_self, hf]
      · rw [getCell_setCell_ne _ _ _ _ hdc]
    · have hdc : d = c := by
        rcases List.mem_cons.mp h with h1 | h1
        · exact h1.symm
        · exact absurd h1 hc
      rw [getCell_rowUpdate_not_mem _ _ _ _ hc, hdc, getCell_setCell_self]

theorem mem_keys_rowUpdate_of_mem (cs : List String) (f : Value → Value)
    (r : Row) (c : String) (h : c ∈ rowKeys r) :
    c ∈ rowKeys (rowUpdate cs f r) := by
  induction cs generalizing r with
  | nil => exact h
  | cons d cs ih =>
    exact ih _ (mem_keys_setCell_of_mem _ _ _ _ h)

theorem mem_keys_rowUpdate (cs : List String) (f : Value → Value)
    (r : Row) (c : String) (h : c ∈ cs) :
    c ∈ rowKeys (rowUpdate cs f r) := by
  induction cs generalizing r with
  | nil => simp at h
  | cons d cs ih =>
    rcases List.mem_cons.mp h with h1 | h1
    · subst h1
      show c ∈ rowKeys (rowUpdate cs f (setCell r c (f (getCell r c))))
      exact mem_keys_rowUpdate_of_mem cs f _ c (mem_keys_setCell_self r c _)
    · exact ih _ h1

theorem rowUpdate_eq_self (cs : List String) (f : Value → Value) (r : Row)
    (h : ∀ c ∈ cs, c ∈ rowKeys r ∧ f (getCell r c) = getCell r c) :
    rowUpdate cs f r = r := by
  induction cs with
  | nil => rfl
  | cons d cs ih =>
    have hd := h d (List.mem_cons_self d cs)
    show rowUpdate cs f (setCell r d (f (getCell r d))) = r
    rw [hd.2, setCell_getCell_self _ _ hd.1]
    exact ih (fun c hc => h c (List.mem_cons_of_mem d hc))

/-! ## Cell-cleaning lemmas -/

theorem parseCell_idem (v : Value) : parseCell (parseCell v) = parseCell v := by
  cases v with
  | str s =>
    show parseCell (parseCell (Value.str s)) = parseCell (Value.str s)
    rcases hp : parseNum (stripCS s) with _ | p
    · simp [parseCell, hp]
    · cases p <;> simp [parseCell, hp]
  | num q => rfl
  | inf b => rfl
  | nan => rfl
  | null => rfl

theorem fillZero_idem (v : Value) : fillZero (fillZero v) = fillZero v := by
  cases v <;> rfl

theorem numLike_cleanedCell (v : Value) : numLike (cleanedCell v) = true := by
  cases v with
  | str s =>
    show numLike (fillZero (parseCell (Value.str s))) = true
    rcases hp : parseNum (stripCS s) with _ | p
    · simp [parseCell, hp, fillZero, numLike]
    · cases p <;> simp [parseCell, hp, fillZero, numLike]
  | num q => rfl
  | inf b => rfl
  | nan => rfl
  | null => rfl

theorem parseCell_of_numLike (v : Value) (h : numLike v = true) :
    parseCell v = v := by
  cases v with
  | num q => rfl
  | inf b => rfl
  | str s => simp [numLike] at h
  | nan => simp [numLike] at h
  | null => simp [numLike] at h

theorem fillZero_of_numLike (v : Value) (h : numLike v = true) :
    fillZero v = v := by
  cases v with
  | num q => rfl
  | inf b => rfl
  | str s => simp [numLike] at h
  | nan => simp [numLike] at h
  | null => simp [numLike] at h

theorem cleanedCell_null : cleanedCell Value.null = Value.num 0 := rfl

theorem cleanedCell_nan : cleanedCell Value.nan = Value.num 0 := rfl

theorem cleanedCell_str_fail (s : String) (h : parseNum (stripCS s) = none) :
    cleanedCell (Value.str s) = Value.num 0 := by
  simp [cleanedCell, parseCell, h, fillZero]

theorem cleanedCell_str_num (s : String) (q : ℚ)
    (h : parseNum (stripCS s) = some (PFloat.num q)) :
    cleanedCell (Value.str s) = Value.num q := by
  simp [cleanedCell, parseCell, h, fillZero]

/-! ## `clean_numeric` structure lemmas -/

theorem foldl_parseColumn_cols (cs : List String) (T : Table) :
    (cs.foldl parseColumn T).cols = T.cols := by
  induction cs generalizing T with
  | nil => rfl
  | cons c cs ih =>
    show (cs.foldl parseColumn (parseColumn T c)).cols = T.cols
    rw [ih]
    by_cases h : c ∈ T.cols <;> simp [parseColumn, h]

theorem foldl_parseColumn_rows (cs : List String) (T : Table)
    (h : ∀ c ∈ cs, c ∈ T.cols) :
    (cs.foldl parseColumn T).rows = T.rows.map (rowUpdate cs parseCell) := by
  induction cs generalizing T with
  | nil =>
    exact (List.map_id'' (fun _ => rfl) T.rows).symm
  | cons c cs ih =>
    have hc : c ∈ T.cols := h c (List.mem_cons_self c cs)
    show (cs.foldl parseColumn (parseColumn T c)).rows = _
    have hcols : (parseColumn T c).cols = T.cols := by simp [parseColumn, hc]
    rw [ih (parseColumn T c) (fun d hd => hcols ▸ h d (List.mem_cons_of_mem c hd))]
    simp only [parseColumn, if_pos hc, List.map_map]
    rfl

theorem clean_numeric_eq_some (T : Table) (cs : List String)
    (h : ∀ c ∈ cs, c ∈ T.cols) :
    clean_numeric T cs =
      some { cols := T.cols,
             rows := T.rows.map
               (fun r => rowUpdate cs fillZero (rowUpdate cs parseCell r)) } := by
  show fillnaCols (cs.foldl parseColumn T) cs = _
  have hcols := foldl_parseColumn_cols cs T
  have hall : cs.all (fun c => decide (c ∈ (cs.foldl parseColumn T).cols)) = true := by
    rw [List.all_eq_true]
    intro c hc
    rw [hcols]
    exact decide_eq_true (h c hc)
  rw [fillnaCols, if_pos hall, foldl_parseColumn_rows cs T h]
  simp [hcols, List.map_map]

theorem clean_numeric_eq_none (T : Table) (cs : List String)
    (c : String) (hc : c ∈ cs) (h : c ∉ T.cols) :
    clean_numeric T cs = none := by
  show fillnaCols (cs.foldl parseColumn T) cs = _
  have hcols := foldl_parseColumn_cols cs T
  have hall : cs.all (fun d => decide (d ∈ (cs.foldl parseColumn T).cols)) = false := by
    rw [List.all_eq_false]
    exact ⟨c, hc, by simp [hcols, h]⟩
  rw [fillnaCols, hall]
  rfl

theorem clean_numeric_cell_mem (cs : List String) (r : Row) (c : String)
    (h : c ∈ cs) :
    getCell (rowUpdate cs fillZero (rowUpdate cs parseCell r)) c =
      cleanedCell (getCell r c) := by
  rw [getCell_rowUpdate_mem cs fillZero fillZero_idem _ c h,
      getCell_rowUpdate_mem cs parseCell parseCell_idem r c h]
  rfl

theorem clean_numeric_cell_not_mem (cs : List String) (r : Row) (c : String)
    (h : c ∉ cs) :
    getCell (rowUpdate cs fillZero (rowUpdate cs parseCell r)) c =
      getCell r c := by
  rw [getCell_rowUpdate_not_mem cs fillZero _ c h,
      getCell_rowUpdate_not_mem cs parseCell r c h]

theorem clean_numeric_some_imp_cols (T : Table) (cs : List String) (T' : Table)
    (h : clean_numeric T cs = some T') : ∀ c ∈ cs, c ∈ T.cols := by
  intro c hc
  by_contra hn
  rw [clean_numeric_eq_none T cs c hc hn] at h
  exact Option.noConfusion h

theorem clean_numeric_some_shape (T : Table) (cs : List String) (T' : Table)
    (h : clean_numeric T cs = some T') :
    T' = { cols := T.cols,
           rows := T.rows.map
             (fun r => rowUpdate cs fillZero (rowUpdate cs parseCell r)) } := by
  have he := clean_numeric_eq_some T cs (clean_numeric_some_imp_cols T cs T' h)
  rw [he] at h
  exact (Option.some.inj h).symm

/-! ## Claim C1 -/

/-- C1, counterexample: on the cell `"inf"` in a requested numeric column,
`clean_numeric` succeeds and yields positive infinity — a cell that is
neither a finite number nor zero, although the claim demands one of those
("every cell … is a well-defined finite number"; `"inf"` does parse, so the
parse-failure-to-zero clause does not apply). -/
theorem clean_numeric_inf_cell :
    clean_numeric infTable ["P"] =
      some { cols := ["P"], rows := [[("P", Value.inf true)]] } ∧
    finiteNum (Value.inf true) = false ∧
    parseNum (stripCS "inf") = some (PFloat.inf true) := by decide

/-- C1 (amended): after a successful `clean_numeric(T, C)`, every cell in
each column of C is an actual number — finite or infinite — and never null;
a null cell, and a text cell that fails to parse after comma/space removal,
becomes the number zero, and a text cell parsing to a finite number becomes
that number. -/
theorem clean_numeric_cells_numeric (T T' : Table) (cs : List String)
    (h : clean_numeric T cs = some T') :
    T'.rows.length = T.rows.length ∧
    ∀ c ∈ cs, ∀ i : ℕ, ∀ hi : i < T'.rows.length, ∀ hj : i < T.rows.length,
      numLike (getCell ((T'.rows).get ⟨i, hi⟩) c) = true ∧
      (getCell ((T.rows).get ⟨i, hj⟩) c = Value.null →
        getCell ((T'.rows).get ⟨i, hi⟩) c = Value.num 0) ∧
      (∀ s, getCell ((T.rows).get ⟨i, hj⟩) c = Value.str s →
        parseNum (stripCS s) = none →
        getCell ((T'.rows).get ⟨i, hi⟩) c = Value.num 0) ∧
      (∀ s q, getCell ((T.rows).get ⟨i, hj⟩) c = Value.str s →
        parseNum (stripCS s) = some (PFloat.num q) →
        getCell ((T'.rows).get ⟨i, hi⟩) c = Value.num q) := by
  have hshape := clean_numeric_some_shape T cs T' h
  subst hshape
  refine ⟨List.length_map _ _, ?_⟩
  intro c hc i hi hj
  have hcell :
      getCell ((T.rows.map
        (fun r => rowUpdate cs fillZero (rowUpdate cs parseCell r))).get
          ⟨i, hi⟩) c = cleanedCell (getCell ((T.rows).get ⟨i, hj⟩) c) := by
    rw [List.get_map]
    exact clean_numeric_cell_mem cs _ c hc
  refine ⟨?_, ?_, ?_, ?_⟩
  · rw [hcell]; exact numLike_cleanedCell _
  · intro hnull; rw [hcell, hnull]; rfl
  · intro s hs hp; rw [hcell, hs]; exact cleanedCell_str_fail s hp
  · intro s q hs hp; rw [hcell, hs]; exact cleanedCell_str_num s q hp

/-- Witness for the amended C1 at a concrete unparseable cell. -/
theorem clean_numeric_cells_numeric_witness :
    clean_numeric c1WitIn ["P"] = some c1WitOut ∧
    (c1WitOut.rows.length = c1WitIn.rows.length ∧
     ∀ c ∈ ["P"], ∀ i : ℕ, ∀ hi : i < c1WitOut.rows.length,
       ∀ hj : i < c1WitIn.rows.length,
       numLike (getCell ((c1WitOut.rows).get ⟨i, hi⟩) c) = true ∧
       (getCell ((c1WitIn.rows).get ⟨i, hj⟩) c = Value.null →
         getCell ((c1WitOut.rows).get ⟨i, hi⟩) c = Value.num 0) ∧
       (∀ s, getCell ((c1WitIn.rows).get ⟨i, hj⟩) c = Value.str s →
         parseNum (stripCS s) = none →
         getCell ((c1WitOut.rows).get ⟨i, hi⟩) c = Value.num 0) ∧
       (∀ s q, getCell ((c1WitIn.rows).get ⟨i, hj⟩) c = Value.str s →
         parseNum (stripCS s) = some (PFloat.num q) →
         getCell ((c1WitOut.rows).get ⟨i, hi⟩) c = Value.num q)) :=
  ⟨by decide, clean_numeric_cells_numeric c1WitIn c1WitOut ["P"] (by decide)⟩

/-! ## Claim C2 -/

/-- C2 fails on the code: when a requested numeric column is absent from the
frame, line 38 (`df[numeric_cols] = df[numeric_cols].fillna(0)`) raises
`KeyError` instead of skipping it — here, evaluation at the failing input
(a frame with only column "A", cleaning `["Production"]`) aborts (`none`)
rather than succeeding. -/
theorem clean_numeric_missing_column_aborts :
    clean_numeric { cols := ["A"], rows := [[("A", Value.str "x")]] }
      ["Production"] = none := by decide

/-! ## Claim C5 -/

/-- C5: `clean_numeric` is idempotent — re-cleaning the cleaned frame
returns it unchanged (and a failing clean stays failing). -/
theorem clean_numeric_idem (T : Table) (cs : List String) :
    (clean_numeric T cs).bind (fun T2 => clean_numeric T2 cs) =
      clean_numeric T cs := by
  by_cases hall : ∀ c ∈ cs, c ∈ T.cols
  · have he := clean_numeric_eq_some T cs hall
    rw [he]
    show clean_numeric _ cs = _
    have hall2 : ∀ c ∈ cs,
        c ∈ (Table.mk T.cols (T.rows.map
          (fun r => rowUpdate cs fillZero (rowUpdate cs parseCell r)))).cols :=
      hall
    rw [clean_numeric_eq_some _ cs hall2]
    refine congrArg some (congrArg (Table.mk T.cols) ?_)
    show (T.rows.map _).map _ = T.rows.map _
    rw [List.map_map]
    refine List.map_congr_left ?_
    intro r _
    show rowUpdate cs fillZero (rowUpdate cs parseCell
      (rowUpdate cs fillZero (rowUpdate cs parseCell r))) = _
    have hfix : ∀ c ∈ cs,
        c ∈ rowKeys (rowUpdate cs fillZero (rowUpdate cs parseCell r)) ∧
        parseCell (getCell (rowUpdate cs fillZero (rowUpdate cs parseCell r)) c)
          = getCell (rowUpdate cs fillZero (rowUpdate cs parseCell r)) c := by
      intro c hc
      constructor
      · exact mem_keys_rowUpdate cs fillZero _ c hc
      · rw [clean_numeric_cell_mem cs r c hc]
        exact parseCell_of_numLike _ (numLike_cleanedCell _)
    rw [rowUpdate_eq_self cs parseCell _ hfix]
    have hfix2 : ∀ c ∈ cs,
        c ∈ rowKeys (rowUpdate cs fillZero (rowUpdate cs parseCell r)) ∧
        fillZero (getCell (rowUpdate cs fillZero (rowUpdate cs parseCell r)) c)
          = getCell (rowUpdate cs fillZero (rowUpdate cs parseCell r)) c := by
      intro c hc
      constructor
      · exact mem_keys_rowUpdate cs fillZero _ c hc
      · rw [clean_numeric_cell_mem cs r c hc]
        exact fillZero_of_numLike _ (numLike_cleanedCell _)
    exact rowUpdate_eq_self cs fillZero _ hfix2
  · push_neg at hall
    obtain ⟨c, hc, hn⟩ := hall
    rw [clean_numeric_eq_none T cs c hc hn]
    rfl

/-! ## Claim C7 -/

/-- C7: `clean_numeric` strips commas and spaces before parsing: the text
cell `"1,234.5"` becomes the number `1234.5`. -/
theorem clean_numeric_comma_cell :
    stripCS "1,234.5" = "1234.5" ∧
    clean_numeric commaTable ["Production"] =
      some { cols := ["Production"],
             rows := [[("Production", Value.num 1234.5)]] } := by
  constructor
  · decide
  · have hq : (((1234 : ℕ) : ℚ) + ((5 : ℕ) : ℚ) / 10 ^ 1) = 1234.5 := by
      norm_num
    calc clean_numeric commaTable ["Production"]
        = some { cols := ["Production"],
                 rows := [[("Production",
                   Value.num (((1234 : ℕ) : ℚ) + ((5 : ℕ) : ℚ) / 10 ^ 1))]] } :=
          rfl
      _ = some { cols := ["Production"],
                 rows := [[("Production", Value.num 1234.5)]] } := by rw [hq]

/-! ## Claim C8 -/

/-- C8: `clean_numeric` is a frame transformation on the requested columns
only — the column list, the row count, and every cell of every column not
named in the request are unchanged. -/
theorem clean_numeric_frame (T T' : Table) (cs : List String)
    (h : clean_numeric T cs = some T') :
    T'.cols = T.cols ∧ T'.rows.length = T.rows.length ∧
    ∀ c, c ∉ cs → ∀ i : ℕ, ∀ hi : i < T'.rows.length,
      ∀ hj : i < T.rows.length,
      getCell ((T'.rows).get ⟨i, hi⟩) c = getCell ((T.rows).get ⟨i, hj⟩) c := by
  have hshape := clean_numeric_some_shape T cs T' h
  subst hshape
  refine ⟨rfl, List.length_map _ _, ?_⟩
  intro c hc i hi hj
  rw [List.get_map]
  exact clean_numeric_cell_not_mem cs _ c hc

/-- Witness for C8 at a concrete frame with an untouched text column. -/
theorem clean_numeric_frame_witness :
    clean_numeric c8WitIn ["P"] = some c8WitOut ∧
    (c8WitOut.cols = c8WitIn.cols ∧
     c8WitOut.rows.length = c8WitIn.rows.length ∧
     ∀ c, c ∉ ["P"] → ∀ i : ℕ, ∀ hi : i < c8WitOut.rows.length,
       ∀ hj : i < c8WitIn.rows.length,
       getCell ((c8WitOut.rows).get ⟨i, hi⟩) c =
         getCell ((c8WitIn.rows).get ⟨i, hj⟩) c) :=
  ⟨by decide, clean_numeric_frame c8WitIn c8WitOut ["P"] (by decide)⟩

/-! ## Filter lemmas and claims C3, C9, C10 -/

theorem filterEq_cols (T : Table) (c v : String) :
    (filterEq T c v).cols = T.cols := by
  by_cases h : c ∈ T.cols <;> simp [filterEq, h]

/-- C3: the composed equality filters return exactly the rows passing every
applicable filter (exact, case- and type-sensitive equality, AND-composed;
filters on absent columns ignored), as a subsequence of the input rows —
order preserved, columns untouched. -/
theorem applyFiltersL_spec (T : Table) (fs : List (String × String)) :
    (applyFiltersL T fs).cols = T.cols ∧
    (applyFiltersL T fs).rows = T.rows.filter (keepRow T.cols fs) ∧
    List.Sublist (applyFiltersL T fs).rows T.rows := by
  induction fs generalizing T with
  | nil =>
    refine ⟨rfl, ?_, List.Sublist.refl _⟩
    show T.rows = T.rows.filter (keepRow T.cols [])
    rw [show keepRow T.cols [] = fun _ => true from rfl, List.filter_true]
  | cons p fs ih =>
    obtain ⟨ihc, ihr, _⟩ := ih (filterEq T p.1 p.2)
    rw [filterEq_cols T p.1 p.2] at ihc ihr
    have hrows : (applyFiltersL T (p :: fs)).rows =
        T.rows.filter (keepRow T.cols (p :: fs)) := by
      show (applyFiltersL (filterEq T p.1 p.2) fs).rows = _
      rw [ihr]
      have hval : ∀ r : Row, keepRow T.cols (p :: fs) r =
          ((if p.1 ∈ T.cols then getCell r p.1 == Value.str p.2 else true) &&
            keepRow T.cols fs r) := fun _ => rfl
      by_cases hp : p.1 ∈ T.cols
      · have hfe : (filterEq T p.1 p.2).rows =
            T.rows.filter (fun r => getCell r p.1 == Value.str p.2) := by
          simp [filterEq, hp]
        rw [hfe, List.filter_filter]
        refine List.filter_congr ?_
        intro r _
        rw [hval r, if_pos hp]
        exact Bool.and_comm _ _
      · have hfe : (filterEq T p.1 p.2).rows = T.rows := by
          simp [filterEq, hp]
        rw [hfe]
        refine List.filter_congr ?_
        intro r _
        rw [hval r, if_neg hp, Bool.true_and]
    refine ⟨?_, hrows, ?_⟩
    · show (applyFiltersL (filterEq T p.1 p.2) fs).cols = T.cols
      exact ihc
    · rw [hrows]
      exact List.filter_sublist _

/-- C9: a sentinel selection ("All Regions" / "All Categories") skips its
filter block entirely, so the table passes through unchanged row for row —
even when some row's cell literally holds the sentinel string. -/
theorem sentinel_skips_filter (T : Table) :
    filterBlock T "Region" "All Regions" "All Regions" = T ∧
    filterBlock T "Category" "All Categories" "All Categories" = T ∧
    applyFilters T "All Regions" "All Categories" = T :=
  ⟨rfl, rfl, rfl⟩

/-- C10: one equality-filter step is idempotent — filtering an
already-filtered table by the same column and value changes nothing. -/
theorem filterEq_idem (T : Table) (c v : String) :
    filterEq (filterEq T c v) c v = filterEq T c v := by
  by_cases h : c ∈ T.cols
  · have h2 : c ∈ (filterEq T c v).cols := by rw [filterEq_cols]; exact h
    have hfe : (filterEq T c v).rows =
        T.rows.filter (fun r => getCell r c == Value.str v) := by
      simp [filterEq, h]
    show (if c ∈ (filterEq T c v).cols then _ else _) = _
    rw [if_pos h2]
    refine congrArg (Table.mk (filterEq T c v).cols) ?_
    show (filterEq T c v).rows.filter (fun r => getCell r c == Value.str v) =
      (filterEq T c v).rows
    rw [hfe, List.filter_filter]
    refine Eq.trans (List.filter_congr ?_) rfl
    intro r _
    exact Bool.and_self _
  · have h2 : c ∉ (filterEq T c v).cols := by rw [filterEq_cols]; exact h
    show (if c ∈ (filterEq T c v).cols then _ else _) = _
    rw [if_neg h2]

/-! ## Key-order lemmas and claim C4 -/

theorem lexLe_cons (a b : Char) (as bs : List Char) :
    lexLe (a :: as) (b :: bs) = true ↔
      a.toNat < b.toNat ∨ (a.toNat = b.toNat ∧ lexLe as bs = true) := by
  by_cases h1 : a.toNat < b.toNat
  · simp [lexLe, h1]
  · by_cases h2 : b.toNat < a.toNat
    · simp only [lexLe, if_neg h1, if_pos h2]
      constructor
      · intro h; exact absurd h (by decide)
      · intro h
        rcases h with h | ⟨h, _⟩ <;> omega
    · simp only [lexLe, if_neg h1, if_neg h2]
      constructor
      · intro h; exact Or.inr ⟨by omega, h⟩
      · intro h
        rcases h with h | ⟨_, h⟩
        · omega
        · exact h

theorem lexLe_total : ∀ a b : List Char, lexLe a b = true ∨ lexLe b a = true
  | [], _ => Or.inl rfl
  | _ :: _, [] => Or.inr rfl
  | a :: as, b :: bs => by
    rw [lexLe_cons, lexLe_cons]
    rcases Nat.lt_trichotomy a.toNat b.toNat with h | h | h
    · exact Or.inl (Or.inl h)
    · rcases lexLe_total as bs with h2 | h2
      · exact Or.inl (Or.inr ⟨h, h2⟩)
      · exact Or.inr (Or.inr ⟨h.symm, h2⟩)
    · exact Or.inr (Or.inl h)

theorem lexLe_trans :
    ∀ a b c : List Char, lexLe a b = true → lexLe b c = true →
      lexLe a c = true
  | [], _, _, _, _ => rfl
  | _ :: _, [], _, hab, _ => by simp [lexLe] at hab
  | _ :: _, _ :: _, [], _, hbc => by simp [lexLe] at hbc
  | a :: as, b :: bs, c :: cs, hab, hbc => by
    rw [lexLe_cons] at hab hbc ⊢
    rcases hab with h | ⟨he, hr⟩ <;> rcases hbc with h2 | ⟨he2, hr2⟩
    · exact Or.inl (by omega)
    · exact Or.inl (by omega)
    · exact Or.inl (by omega)
    · exact Or.inr ⟨by omega, lexLe_trans as bs cs hr hr2⟩

theorem keyLe_total (a b : Value) : keyLe a b = true ∨ keyLe b a = true := by
  cases a with
  | str s1 =>
    cases b with
    | str s2 => exact lexLe_total s1.toList s2.toList
    | num q => exact Or.inr rfl
    | inf x => exact Or.inr rfl
    | nan => exact Or.inl rfl
    | null => exact Or.inl rfl
  | num q1 =>
    cases b with
    | str s => exact Or.inl rfl
    | num q2 =>
      rcases le_total q1 q2 with h | h
      · exact Or.inl (decide_eq_true h)
      · exact Or.inr (decide_eq_true h)
    | inf x =>
      cases x
      · exact Or.inr rfl
      · exact Or.inl rfl
    | nan => exact Or.inl rfl
    | null => exact Or.inl rfl
  | inf x =>
    cases b with
    | str s => exact Or.inl rfl
    | num q =>
      cases x
      · exact Or.inl rfl
      · exact Or.inr rfl
    | inf y =>
      cases x <;> cases y <;> first | exact Or.inl rfl | exact Or.inr rfl
    | nan => exact Or.inl rfl
    | null => exact Or.inl rfl
  | nan =>
    cases b with
    | str s => exact Or.inr rfl
    | num q => exact Or.inr rfl
    | inf x => exact Or.inr rfl
    | nan => exact Or.inl rfl
    | null => exact Or.inl rfl
  | null =>
    cases b with
    | str s => exact Or.inr rfl
    | num q => exact Or.inr rfl
    | inf x => exact Or.inr rfl
    | nan => exact Or.inr rfl
    | null => exact Or.inl rfl

theorem keyLe_trans (a b c : Value) (hab : keyLe a b = true)
    (hbc : keyLe b c = true) : keyLe a c = true := by
  cases a <;> cases b <;> cases c <;>
    simp only [keyLe, strLe, decide_eq_true_eq, Bool.or_eq_true,
      Bool.not_eq_true'] at hab hbc ⊢ <;>
    first
      | rfl
      | exact hab
      | exact hbc
      | exact le_trans hab hbc
      | exact lexLe_trans _ _ _ hab hbc
      | (rcases hab with h1 | h1 <;> rcases hbc with h2 | h2 <;> simp_all)

instance : IsTotal Value keyLeP := ⟨keyLe_total⟩

instance : IsTrans Value keyLeP := ⟨keyLe_trans⟩

theorem mem_colKeys (T : Table) (c : String) (k : Value) :
    k ∈ colKeys T c ↔
      (k ≠ Value.nan ∧ k ≠ Value.null ∧ ∃ r ∈ T.rows, getCell r c = k) := by
  simp only [colKeys, List.mem_filterMap]
  constructor
  · rintro ⟨r, hr, hm⟩
    rcases hg : getCell r c with s | q | b | _ | _ <;> rw [hg] at hm
    · have hk := Option.some.inj hm
      subst hk
      exact ⟨by simp, by simp, r, hr, hg⟩
    · have hk := Option.some.inj hm
      subst hk
      exact ⟨by simp, by simp, r, hr, hg⟩
    · have hk := Option.some.inj hm
      subst hk
      exact ⟨by simp, by simp, r, hr, hg⟩
    · exact Option.noConfusion hm
    · exact Option.noConfusion hm
  · rintro ⟨h1, h2, r, hr, hg⟩
    refine ⟨r, hr, ?_⟩
    rw [hg]
    cases k with
    | str s => rfl
    | num q => rfl
    | inf b => rfl
    | nan => exact absurd rfl h1
    | null => exact absurd rfl h2

theorem colPF_all_num (rows : List Row) (n : String)
    (h : ∀ r ∈ rows, ∃ q : ℚ, getCell r n = Value.num q) :
    colPF rows n = (colNums rows n).map PFloat.num ∧
    (colNums rows n).length = rows.length := by
  induction rows with
  | nil => exact ⟨rfl, rfl⟩
  | cons r rs ih =>
    obtain ⟨q, hq⟩ := h r (List.mem_cons_self r rs)
    obtain ⟨ih1, ih2⟩ := ih (fun r3 hr3 => h r3 (List.mem_cons_of_mem r hr3))
    have e1 : colPF (r :: rs) n = PFloat.num q :: colPF rs n := by
      simp [colPF, List.filterMap_cons, hq]
    have e2 : colNums (r :: rs) n = q :: colNums rs n := by
      simp [colNums, List.filterMap_cons, hq]
    rw [e1, e2, List.map_cons, ih1, List.length_cons, ih2, List.length_cons]
    exact ⟨rfl, rfl⟩

theorem pfSum_map_num (l : List ℚ) :
    pfSum (l.map PFloat.num) = PFloat.num l.sum := by
  have key : ∀ (xs : List ℚ) (a : ℚ),
      (xs.map PFloat.num).foldl pfAdd (PFloat.num a) = PFloat.num (a + xs.sum) := by
    intro xs
    induction xs with
    | nil =>
      intro a
      simp
    | cons x xs ih =>
      intro a
      simp only [List.map_cons, List.foldl_cons]
      rw [show pfAdd (PFloat.num a) (PFloat.num x) = PFloat.num (a + x) from rfl,
        ih, List.sum_cons, add_assoc]
  rw [pfSum, key, zero_add]

/-- C4: for a table with the categorical column `c` and a distinct numeric
column `n` (no text cells — the dtype on which `mean` is defined),
`groupMean` has columns `[c, n]`; its key column enumerates exactly the
distinct non-null keys of `c` — string, numeric or infinite alike, each
exactly once — sorted ascending in the group-key order; and each output row
pairs its key with the mean of `n` over the nonempty group of rows carrying
that key: the skipna/IEEE mean in general, which is the arithmetic mean
`sum / count` whenever the group's value cells are all finite numbers. -/
theorem groupMean_spec (T : Table) (c n : String)
    (_hc : c ∈ T.cols) (_hn : n ∈ T.cols) (hcn : c ≠ n)
    (_hstr : ∀ r ∈ T.rows, isStrCell (getCell r n) = false) :
    (groupMean T c n).cols = [c, n] ∧
    List.Perm ((groupMean T c n).rows.map (fun r => getCell r c))
      (colKeys T c).dedup ∧
    List.Sorted keyLeP ((groupMean T c n).rows.map (fun r => getCell r c)) ∧
    ((groupMean T c n).rows.map (fun r => getCell r c)).Nodup ∧
    ∀ r2 ∈ (groupMean T c n).rows, ∃ k : Value,
      getCell r2 c = k ∧ k ≠ Value.nan ∧ k ≠ Value.null ∧
      0 < (groupRows T c k).length ∧
      getCell r2 n = pfToValue (meanPF (colPF (groupRows T c k) n)) ∧
      ((∀ r3 ∈ groupRows T c k, ∃ q : ℚ, getCell r3 n = Value.num q) →
        0 < (colNums (groupRows T c k) n).length ∧
        getCell r2 n = Value.num ((colNums (groupRows T c k) n).sum /
          ((colNums (groupRows T c k) n).length : ℚ))) := by
  have hgetc : ∀ (k : Value) (v : Value), getCell [(c, k), (n, v)] c = k := by
    intro k v
    simp [getCell]
  have hgetn : ∀ (k : Value) (v : Value), getCell [(c, k), (n, v)] n = v := by
    intro k v
    simp [getCell, hcn]
  have hrows : (groupMean T c n).rows =
      (List.insertionSort keyLeP (colKeys T c).dedup).map (fun k =>
        [(c, k), (n, pfToValue (meanPF (colPF (groupRows T c k) n)))]) := rfl
  have hkeys : (groupMean T c n).rows.map (fun r => getCell r c) =
      List.insertionSort keyLeP (colKeys T c).dedup := by
    rw [hrows, List.map_map]
    have h1 : List.map ((fun r => getCell r c) ∘ fun k =>
        [(c, k), (n, pfToValue (meanPF (colPF (groupRows T c k) n)))])
        (List.insertionSort keyLeP (colKeys T c).dedup) =
        List.map (fun k => k)
          (List.insertionSort keyLeP (colKeys T c).dedup) :=
      List.map_congr_left (fun k _ => hgetc k _)
    rw [h1, List.map_id']
  refine ⟨rfl, ?_, ?_, ?_, ?_⟩
  · rw [hkeys]
    exact List.perm_insertionSort keyLeP _
  · rw [hkeys]
    exact List.sorted_insertionSort keyLeP _
  · rw [hkeys]
    exact ((List.perm_insertionSort keyLeP _).symm.nodup
      (List.nodup_dedup _))
  · intro r2 hr2
    rw [hrows] at hr2
    obtain ⟨k, hk, he⟩ := List.mem_map.mp hr2
    have hk2 : k ∈ colKeys T c := by
      have hmem :=
        (List.perm_insertionSort keyLeP (colKeys T c).dedup).mem_iff.mp hk
      exact (List.mem_dedup).mp hmem
    obtain ⟨hknan, hknull, r, hr, hg⟩ := (mem_colKeys T c k).mp hk2
    have hgr : r ∈ groupRows T c k := by
      simp only [groupRows, List.mem_filter]
      exact ⟨hr, by rw [hg]; exact beq_self_eq_true _⟩
    have hglen : 0 < (groupRows T c k).length := List.length_pos_of_mem hgr
    refine ⟨k, ?_, hknan, hknull, hglen, ?_, ?_⟩
    · rw [he.symm]
      exact hgetc k _
    · rw [he.symm]
      exact hgetn k _
    · intro hfin
      obtain ⟨hpf, hlen⟩ := colPF_all_num (groupRows T c k) n hfin
      have hlenpos : 0 < (colNums (groupRows T c k) n).length := by
        rw [hlen]
        exact hglen
      refine ⟨hlenpos, ?_⟩
      rw [he.symm, hgetn, hpf]
      simp only [meanPF, pfSum_map_num, List.length_map]
      rw [if_neg (Nat.pos_iff_ne_zero.mp hlenpos)]
      rfl

/-- Witness for C4 at the spec's example table. -/
theorem groupMean_spec_witness :
    ("Category" ∈ c4WitT.cols ∧ "AvgPrice" ∈ c4WitT.cols ∧
     "Category" ≠ "AvgPrice" ∧
     ∀ r ∈ c4WitT.rows, isStrCell (getCell r "AvgPrice") = false) ∧
    ((groupMean c4WitT "Category" "AvgPrice").cols = ["Category", "AvgPrice"] ∧
     List.Perm
       ((groupMean c4WitT "Category" "AvgPrice").rows.map
         (fun r => getCell r "Category"))
       (colKeys c4WitT "Category").dedup ∧
     List.Sorted keyLeP
       ((groupMean c4WitT "Category" "AvgPrice").rows.map
         (fun r => getCell r "Category")) ∧
     ((groupMean c4WitT "Category" "AvgPrice").rows.map
       (fun r => getCell r "Category")).Nodup ∧
     ∀ r2 ∈ (groupMean c4WitT "Category" "AvgPrice").rows, ∃ k : Value,
       getCell r2 "Category" = k ∧ k ≠ Value.nan ∧ k ≠ Value.null ∧
       0 < (groupRows c4WitT "Category" k).length ∧
       getCell r2 "AvgPrice" =
         pfToValue (meanPF (colPF (groupRows c4WitT "Category" k) "AvgPrice")) ∧
       ((∀ r3 ∈ groupRows c4WitT "Category" k, ∃ q : ℚ,
           getCell r3 "AvgPrice" = Value.num q) →
         0 < (colNums (groupRows c4WitT "Category" k) "AvgPrice").length ∧
         getCell r2 "AvgPrice" = Value.num
           ((colNums (groupRows c4WitT "Category" k) "AvgPrice").sum /
             ((colNums (groupRows c4WitT "Category" k) "AvgPrice").length : ℚ)))) :=
  ⟨⟨by decide, by decide, by decide, by decide⟩,
   groupMean_spec c4WitT "Category" "AvgPrice"
     (by decide) (by decide) (by decide) (by decide)⟩

/-! ## Claim C6 -/

/-- C6: synthetic generation is a deterministic function of the seeded
pseudo-random stream — two runs over equal streams (as forced by the fixed
seed 42) build identical tables — and the table has the advertised shape:
the five columns, 36 rows, twelve per year for 2023, 2024 and 2025. -/
theorem synthetic_reproducible (g1 g2 : ℕ → ℚ) (h : ∀ i, g1 i = g2 i) :
    build_synthetic g1 = build_synthetic g2 ∧
    (build_synthetic g1).cols =
      ["Month", "Year", "Production", "AvgPrice", "Sellout"] ∧
    (build_synthetic g1).rows.length = 36 ∧
    countYear (build_synthetic g1) 2023 = 12 ∧
    countYear (build_synthetic g1) 2024 = 12 ∧
    countYear (build_synthetic g1) 2025 = 12 ∧
    ∀ r ∈ (build_synthetic g1).rows, rowKeys r = (build_synthetic g1).cols := by
  have hg : g1 = g2 := funext h
  subst hg
  refine ⟨rfl, rfl, rfl, rfl, rfl, rfl, ?_⟩
  intro r hr
  simp only [build_synthetic, yearRows, List.mem_append, List.mem_map,
    List.mem_range] at hr
  rcases hr with (h2 | h2) | h2 <;> obtain ⟨i, hi, he⟩ := h2 <;> subst he <;>
    rfl

/-- Witness for C6 at the constant-zero draw stream. -/
theorem synthetic_reproducible_witness :
    (∀ i : ℕ, (fun _ : ℕ => (0 : ℚ)) i = (fun _ : ℕ => (0 : ℚ)) i) ∧
    (build_synthetic (fun _ => 0) = build_synthetic (fun _ => 0) ∧
     (build_synthetic (fun _ => 0)).cols =
       ["Month", "Year", "Production", "AvgPrice", "Sellout"] ∧
     (build_synthetic (fun _ => 0)).rows.length = 36 ∧
     countYear (build_synthetic (fun _ => 0)) 2023 = 12 ∧
     countYear (build_synthetic (fun _ => 0)) 2024 = 12 ∧
     countYear (build_synthetic (fun _ => 0)) 2025 = 12 ∧
     ∀ r ∈ (build_synthetic (fun _ => 0)).rows,
       rowKeys r = (build_synthetic (fun _ => 0)).cols) :=
  ⟨fun _ => rfl,
   synthetic_reproducible (fun _ => 0) (fun _ => 0) (fun _ => rfl)⟩

